import Mathlib

/-!
Verification of the HTML allowlist sanitizer, content classifier and
plain-text formatter of `src/components/RichText.tsx`.

The sanitizer operates on the DOM tree produced by `DOMParser.parseFromString
(input, "text/html")`.  The browser parser itself is external machinery; we
embed the document it produces (a head forest and a body element with
attributes and a child forest) and translate the repository's own code —
`sanitizeHtml`'s `walk` rewrite, its attribute filtering, the
`body.innerHTML` serialization, the `looksLikeHtml` classifier and the
plain-text paragraph splitting of the `RichText` component — into Lean
functions, faithfully following the DOM mutation semantics:

* `node.parentNode.removeChild(node)` / `replaceChild(text, node)` change the
  node's position in its *parent*; the removed/replaced node object keeps its
  own child list unchanged;
* `walk` is translated as a function from a node to what the parent's child
  list holds for it afterwards (`none` = detached, `some n` = kept/replaced);
* `sanitizeHtml` calls `walk(doc.body)` and then serializes `body.innerHTML`
  of the *original* `body` object: if the walk left the body an element with
  rewritten children those are serialized, and if the walk replaced the body
  in its parent (it does: `body`'s tag is not in `ALLOWED_TAGS`) the body
  object's original, untouched children are serialized.
-/

/-- The character class of JavaScript `String.prototype.trim` (Unicode
whitespace plus line terminators, as browsers implement it). -/
def isJsSpace (c : Char) : Bool :=
  c = ' ' || c = '\t' || c = '\n' || c = '\r' || c = '\u000B' || c = '\u000C' ||
  c = ' ' || c = ' ' || (' ' ≤ c && c ≤ ' ') ||
  c = ' ' || c = ' ' || c = ' ' || c = ' ' ||
  c = '　' || c = '﻿'

/-- JavaScript `value.trim()`. -/
def jsTrim (s : String) : String :=
  String.mk (((s.data.dropWhile isJsSpace).reverse.dropWhile isJsSpace).reverse)

/-- Lowercasing of a character as JavaScript `toLowerCase` does on the ASCII
range; tag and attribute names compared by the sanitizer are ASCII. -/
def lowerChar (c : Char) : Char :=
  if 'A' ≤ c && c ≤ 'Z' then Char.ofNat (c.toNat + 32) else c

/-- JavaScript `s.toLowerCase()` (ASCII range). -/
def jsToLower (s : String) : String :=
  String.mk (s.data.map lowerChar)

/-- JavaScript `s.startsWith(p)`. -/
def jsStartsWith (s : String) (p : String) : Bool :=
  p.data.isPrefixOf s.data

/-- The `ALLOWED_TAGS` set of `RichText.tsx`. -/
def ALLOWED_TAGS : List String :=
  ["p", "br", "hr", "blockquote", "ul", "ol", "li", "b", "strong", "i", "em",
   "u", "code", "pre", "span", "a", "h1", "h2", "h3", "h4", "h5", "h6"]

/-- The HTML void elements, which the fragment serializer emits without a
closing tag and whose child list is always empty in a parsed document. -/
def VOID_TAGS : List String :=
  ["area", "base", "br", "col", "embed", "hr", "img", "input", "link",
   "meta", "source", "track", "wbr"]

/-- The `ok` test on `href` values on `<a>`: trim, then check the scheme
allowlist (`http://`, `https://`, `mailto:`, relative `/`, fragment `#`). -/
def hrefOk (value : String) : Bool :=
  let v := jsTrim value
  jsStartsWith v ("http://") || jsStartsWith v ("https://") ||
  jsStartsWith v ("mailto:") || jsStartsWith v ("/") || jsStartsWith v ("#")

/-- The attribute loop body of `walk` for an element whose (lowercased) tag
is `tag`, deciding whether attribute `name` (with value `value`) survives.
`removeAttribute` deletes the attribute, `continue`/fall-through keeps it;
since attribute names are unique per element the loop is a filter. -/
def keepAttr (tag : String) (name : String) (value : String) : Bool :=
  let n := jsToLower name
  if jsStartsWith n ("on") || n == "style" then false
  else if tag == "a" then
    if n == "href" then hrefOk value
    else if n == "title" then true
    else if n == "target" || n == "rel" then true
    else false
  else false

/-- The whole attribute loop of `walk` as a filter over the snapshot of the
element's attributes. -/
def filterAttrs (tag : String) (attrs : List (String × String)) :
    List (String × String) :=
  attrs.filter (fun a => keepAttr tag a.1 a.2)

/-- DOM `el.setAttribute(name, value)` on an attribute list: update the value
in place when the (lowercase) name is present, append otherwise. -/
def setAttr (attrs : List (String × String)) (name value : String) :
    List (String × String) :=
  if attrs.any (fun a => jsToLower a.1 == name) then
    attrs.map (fun a => if jsToLower a.1 == name then (a.1, value) else a)
  else attrs ++ [(name, value)]

/-- A DOM node as `walk` sees it: an element with a tag name, attribute list
(names unique) and child list, a text node, or a comment node. -/
inductive Node where
  | element (tag : String) (attrs : List (String × String)) (children : List Node)
  | text (data : String)
  | comment (data : String)
deriving Repr, BEq

mutual
/-- DOM `el.textContent` for an element: the concatenation of the data of all
descendant text nodes; comments contribute nothing. -/
def descText : Node → String
  | .element _ _ cs => descTextList cs
  | .text s => s
  | .comment _ => ""

def descTextList : List Node → String
  | [] => ""
  | n :: ns => descText n ++ descTextList ns
end

mutual
/-- The `walk` rewrite of `sanitizeHtml`, expressed as the node's fate in its
parent's child list: comments are detached (`none`); text nodes are kept
unchanged; an element with a disallowed tag is replaced by a text node
holding its flattened text content (its own children are never visited); an
element with an allowed tag has its attributes filtered, gets
`target`/`rel` forced when it is an `<a>`, and its children are walked over a
snapshot of the child list. -/
def walk : Node → Option Node
  | .comment _ => none
  | .text s => some (.text s)
  | .element tag attrs cs =>
    let t := jsToLower tag
    if ALLOWED_TAGS.contains t then
      let kept := filterAttrs t attrs
      let final :=
        if t == "a" then
          setAttr (setAttr kept ("target") ("_blank")) ("rel") ("noopener noreferrer")
        else kept
      some (.element tag final (walkList cs))
    else
      some (.text (descTextList cs))

def walkList : List Node → List Node
  | [] => []
  | n :: ns =>
    match walk n with
    | none => walkList ns
    | some m => m :: walkList ns
end

/-- Serialization escape for a character in a text node (`&`, `<`, `>` and
no-break space get entity-escaped). -/
def escTextChar (c : Char) : String :=
  if c = '&' then "&amp;"
  else if c = ' ' then "&nbsp;"
  else if c = '<' then "&lt;"
  else if c = '>' then "&gt;"
  else String.singleton c

/-- Serialization escape for a character in an attribute value. -/
def escAttrChar (c : Char) : String :=
  if c = '&' then "&amp;"
  else if c = ' ' then "&nbsp;"
  else if c = '"' then "&quot;"
  else String.singleton c

/-- Escape the data of a text node for serialization. -/
def escapeText (s : String) : String :=
  s.data.foldr (fun c acc => escTextChar c ++ acc) ""

/-- Escape an attribute value for serialization. -/
def escapeAttr (s : String) : String :=
  s.data.foldr (fun c acc => escAttrChar c ++ acc) ""

/-- Serialize an attribute list as the HTML fragment serializer does. -/
def serializeAttrs : List (String × String) → String
  | [] => ""
  | (n, v) :: rest => " " ++ n ++ "=\"" ++ escapeAttr v ++ "\"" ++ serializeAttrs rest

mutual
/-- The HTML fragment serialization used by `body.innerHTML`: elements are
emitted with lowercase tag names and their attributes, void elements get no
closing tag, text is entity-escaped, comments are emitted verbatim between
comment markers. -/
def serializeNode : Node → String
  | .element tag attrs cs =>
    let t := jsToLower tag
    "<" ++ t ++ serializeAttrs attrs ++ ">" ++
      (if VOID_TAGS.contains t then "" else serializeList cs ++ "</" ++ t ++ ">")
  | .text s => escapeText s
  | .comment s => "<!--" ++ s ++ "-->"

def serializeList : List Node → String
  | [] => ""
  | n :: ns => serializeNode n ++ serializeList ns
end

/-- The document produced by `DOMParser.parseFromString(input, "text/html")`:
the children of `<head>`, and the attributes and children of `<body>`.  The
parser is permissive and always yields a document for mode `"text/html"`;
`none` stands for the tree-construction machinery throwing, the case the
`try`/`catch` of `sanitizeHtml` guards against. -/
structure Doc where
  headChildren : List Node
  bodyAttrs : List (String × String)
  bodyChildren : List Node
deriving Repr

/-- `sanitizeHtml`, given the outcome of the parse step.  On a throw
(`none`), the `catch` returns `""`.  Otherwise `walk(doc.body)` runs: if it
leaves the body an element, the body's rewritten children are what
`body.innerHTML` serializes; if it detaches or replaces the body in its
parent, the `body` variable still references the original element whose
child list was never touched, so `body.innerHTML` serializes the original
`bodyChildren`. -/
def sanitizeHtml (parseResult : Option Doc) : String :=
  match parseResult with
  | none => ""
  | some d =>
    match walk (Node.element ("body") d.bodyAttrs d.bodyChildren) with
    | some (Node.element _ _ cs) => serializeList cs
    | _ => serializeList d.bodyChildren

/-- String-level `sanitizeHtml`, parameterized by the external browser parse
step `parseFn` (`none` = the parser threw). -/
def sanitizeStr (parseFn : String → Option Doc) (input : String) : String :=
  sanitizeHtml (parseFn input)

/-- An ASCII letter, the `[a-z]` class of the classifier's regex under the
`i` flag. -/
def isAsciiLetter (c : Char) : Bool :=
  ('a' ≤ c && c ≤ 'z') || ('A' ≤ c && c ≤ 'Z')

/-- Whether the regex `\/?[a-z][\s\S]*>` (with `i`) matches at the start of
the characters following a `<`: an optional `/`, an ASCII letter, then
anything up to some later `>`. -/
def tagAfterLt : List Char → Bool
  | [] => false
  | c :: rest =>
    if c = '/' then
      match rest with
      | [] => false
      | c2 :: rest2 => isAsciiLetter c2 && rest2.contains '>'
    else
      isAsciiLetter c && rest.contains '>'

/-- Regex search: try the tag pattern at every `<` of the character list. -/
def looksAux : List Char → Bool
  | [] => false
  | c :: rest => (if c = '<' then tagAfterLt rest else false) || looksAux rest

/-- The `looksLikeHtml` classifier: `/<\/?[a-z][\s\S]*>/i.test(s)`. -/
def looksLikeHtml (s : String) : Bool :=
  looksAux s.data

/-- JavaScript `content.split(/\r?\n/)` on a character list: a `\r\n` pair or
a lone `\n` separates lines; a `\r` not followed by `\n` stays in its line. -/
def splitLinesAux : List Char → List Char → List (List Char)
  | [], acc => [acc.reverse]
  | '\r' :: '\n' :: rest, acc => acc.reverse :: splitLinesAux rest []
  | '\n' :: rest, acc => acc.reverse :: splitLinesAux rest []
  | c :: rest, acc => splitLinesAux rest (c :: acc)

/-- `content.split(/\r?\n/)` as a list of line strings. -/
def splitLines (content : String) : List String :=
  (splitLinesAux content.data []).map (fun l => String.mk l)

/-- The kept lines of the plain-text branch:
`content.split(/\r?\n/).filter((l) => l.trim().length > 0)`. -/
def keptLines (content : String) : List String :=
  (splitLines content).filter (fun l => (jsTrim l).data.length > 0)

/-- The plain-text rendering: either the original content as a single
unwrapped block, or one paragraph per kept line. -/
inductive PlainRender where
  | block (content : String)
  | paras (lines : List String)
deriving Repr, DecidableEq

/-- The plain-text branch of the `RichText` component: when at most one
non-blank line remains the original content is rendered unwrapped, otherwise
each kept line becomes one `<p>` paragraph, in order. -/
def formatPlain (content : String) : PlainRender :=
  let lines := keptLines content
  if lines.length ≤ 1 then .block content else .paras lines

/-- What `RichText` returns: markup injected via `dangerouslySetInnerHTML`,
or plain text rendered as literal (escaped) text — a single block or a
paragraph list. -/
inductive Rendered where
  | markup (html : String)
  | textBlock (content : String)
  | textParas (lines : List String)
deriving Repr, DecidableEq

/-- The `RichText` component body: coalesce `null`/`undefined` children to
`""`; if the content looks like HTML, render `sanitizeHtml(content)` as
markup; otherwise render the plain-text formatting, whose text is never
interpreted as markup. -/
def render (parseFn : String → Option Doc) (children : Option String) : Rendered :=
  let content := children.getD ""
  if looksLikeHtml content then
    .markup (sanitizeStr parseFn content)
  else
    match formatPlain content with
    | .block c => .textBlock c
    | .paras ls => .textParas ls

/-!  ## Theorems  -/

/-- The central fact about the slip in `sanitizeHtml`: `walk` is invoked on
`doc.body` itself, and since `"body"` is not in `ALLOWED_TAGS` the
disallowed-element branch fires on the body element — it is replaced in its
parent by a text node and the walk returns before visiting a single child.
The `body` variable still references the original element, whose child list
was never touched, so `body.innerHTML` serializes the parsed input
unchanged. -/
theorem sanitizeHtml_some (d : Doc) :
    sanitizeHtml (some d) = serializeList d.bodyChildren := by
  simp +decide [sanitizeHtml, walk]

/-- C1: refuted on the code.  The claim says the output of `sanitizeHtml`
contains no disallowed element and that each disallowed element is replaced
by its flattened text.  On the parsed document for input `<div>Hi</div>`
(body children: one `div` element), `sanitizeHtml` returns
`<div>Hi</div>` — the disallowed `div` survives verbatim, because `walk` is
applied to the body element itself, whose tag `body` is not allowlisted, so
the rewrite stops there and `body.innerHTML` serializes the untouched
children.  The second conjunct shows the rewrite itself would have produced
the claimed `Hi` had it been applied to the body's children: the spec
describes the intended behavior and the code has a slip. -/
theorem sanitizeHtml_keeps_disallowed_div :
    sanitizeHtml (some ⟨[], [], [Node.element ("div") [] [Node.text ("Hi")]]⟩)
      = "<div>Hi</div>"
    ∧ serializeList (walkList [Node.element ("div") [] [Node.text ("Hi")]]) = "Hi" := by
  constructor <;>
    simp +decide [sanitizeHtml, walk, walkList, serializeList, serializeNode, serializeAttrs,
      descTextList, descText, escapeText, escTextChar]

/-- C2: confirmed.  `sanitizeHtml` is a total function — it never raises to
its caller — and when the internal parse/serialize machinery throws (the
`none` outcome guarded by the `try`/`catch`), the result is the empty
string, never the raw input. -/
theorem sanitizeHtml_total_and_fail_closed :
    (∀ p : Option Doc, ∃ out : String, sanitizeHtml p = out)
    ∧ sanitizeHtml none = "" :=
  ⟨fun p => ⟨sanitizeHtml p, rfl⟩, rfl⟩

/-- C3: refuted on the code.  The claim says no output element carries an
`on*` or `style` attribute.  For the parsed document of
`<p onclick="x()">Hi</p>` — a `p` element, which is even in the allowlist —
the output keeps `onclick` verbatim, since the walk never reaches the body's
children (`walk(doc.body)` hits the disallowed-tag branch on `body` itself).
The second conjunct shows the rewrite applied to the children would have
stripped the handler as the spec states. -/
theorem sanitizeHtml_keeps_onclick :
    sanitizeHtml (some ⟨[], [], [Node.element ("p") [("onclick", "x()")] [Node.text ("Hi")]]⟩)
      = "<p onclick=\"x()\">Hi</p>"
    ∧ serializeList (walkList [Node.element ("p") [("onclick", "x()")] [Node.text ("Hi")]])
      = "<p>Hi</p>" := by
  constructor <;>
    simp +decide [sanitizeHtml, walk, walkList, serializeList, serializeNode, serializeAttrs,
      filterAttrs, keepAttr, setAttr, descTextList, descText, escapeText, escTextChar,
      escapeAttr, escAttrChar, jsToLower, lowerChar, jsStartsWith]

/-- C4: refuted on the code.  The claim says every anchor in the output has
a scheme-allowlisted `href`, `target="_blank"` and
`rel="noopener noreferrer"`.  For the parsed document of
`<a href="javascript:alert(1)">click</a>`, the output anchor keeps the
`javascript:` href and has neither `target` nor `rel`, because the walk
never reaches the body's children.  The second conjunct shows the rewrite
applied to the children would have produced exactly the anchor the spec
describes. -/
theorem sanitizeHtml_keeps_javascript_href :
    sanitizeHtml (some ⟨[], [],
        [Node.element ("a") [("href", "javascript:alert(1)")] [Node.text ("click")]]⟩)
      = "<a href=\"javascript:alert(1)\">click</a>"
    ∧ serializeList (walkList
        [Node.element ("a") [("href", "javascript:alert(1)")] [Node.text ("click")]])
      = "<a target=\"_blank\" rel=\"noopener noreferrer\">click</a>" := by
  constructor <;>
    simp +decide [sanitizeHtml, walk, walkList, serializeList, serializeNode, serializeAttrs,
      filterAttrs, keepAttr, setAttr, hrefOk, jsTrim, descTextList, descText, escapeText,
      escTextChar, escapeAttr, escAttrChar, jsToLower, lowerChar, jsStartsWith]

/-- C8: refuted on the code.  The claim says comment nodes are removed and
comment markers from the input never reach the output.  For the parsed
document of `Hi<!--secret-->` (body children: a text node and a comment
node), the output is `Hi<!--secret-->` — the comment survives with its
markers, because the walk never reaches the body's children.  The second
conjunct shows the rewrite applied to the children would have dropped the
comment. -/
theorem sanitizeHtml_keeps_comment :
    sanitizeHtml (some ⟨[], [], [Node.text ("Hi"), Node.comment ("secret")]⟩)
      = "Hi<!--secret-->"
    ∧ serializeList (walkList [Node.text ("Hi"), Node.comment ("secret")]) = "Hi" := by
  constructor <;>
    simp +decide [sanitizeHtml, walk, walkList, serializeList, serializeNode,
      descTextList, descText, escapeText, escTextChar]

/-- C9: confirmed.  `sanitizeHtml` serializes `doc.body` only: its output
depends solely on the body's children, so any content the permissive parser
hoists outside the body (head elements such as `<style>` or `<title>`,
including their flattened text, and even the body's own attributes)
contributes nothing to the output. -/
theorem sanitizeHtml_depends_only_on_body (d d' : Doc)
    (h : d.bodyChildren = d'.bodyChildren) :
    sanitizeHtml (some d) = sanitizeHtml (some d') := by
  rw [sanitizeHtml_some, sanitizeHtml_some, h]

/-- Witness for C9 at a concrete input: a document whose head holds a
`<style>` element with text, next to one with an empty head — equal bodies,
equal (empty) output. -/
theorem sanitizeHtml_depends_only_on_body_witness :
    sanitizeHtml (some ⟨[Node.element ("style") [] [Node.text ("p color red")]], [], []⟩)
      = sanitizeHtml (some ⟨[], [], []⟩) :=
  sanitizeHtml_depends_only_on_body _ _ rfl

/-- C5: confirmed.  On its own range the sanitizer is idempotent: whenever a
string `x` parses back (via the external browser parse step `parseFn`) to a
document whose body children serialize to `x` itself — which is what the
serializer guarantees for its own output — `sanitizeStr parseFn` fixes `x`,
so `sanitize(sanitize(x)) = sanitize(x)`. -/
theorem sanitizeStr_idempotent (parseFn : String → Option Doc) (x : String) (d : Doc)
    (hp : parseFn x = some d) (hs : x = serializeList d.bodyChildren) :
    sanitizeStr parseFn (sanitizeStr parseFn x) = sanitizeStr parseFn x := by
  have hfix : sanitizeStr parseFn x = x := by
    rw [sanitizeStr, hp, sanitizeHtml_some, ← hs]
  rw [hfix]
  exact hfix

/-- Witness for C5 at a concrete input: a parse step that maps `"hi"` to the
document with body children `[text "hi"]` (which serialize back to `"hi"`),
on which the idempotence equation holds. -/
theorem sanitizeStr_idempotent_witness :
    sanitizeStr (fun s => if s = "hi" then some ⟨[], [], [Node.text ("hi")]⟩ else none)
        (sanitizeStr (fun s => if s = "hi" then some ⟨[], [], [Node.text ("hi")]⟩ else none)
          ("hi"))
      = sanitizeStr (fun s => if s = "hi" then some ⟨[], [], [Node.text ("hi")]⟩ else none)
          ("hi") :=
  sanitizeStr_idempotent _ ("hi") ⟨[], [], [Node.text ("hi")]⟩ (by simp)
    (by simp +decide [serializeList, serializeNode, escapeText, escTextChar])

/-- The spec's description of the classifier's pattern, as a decomposition:
the input contains `<`, optionally `/`, an ASCII letter, then any
characters, then `>`. -/
def SpecTagPattern (l : List Char) : Prop :=
  ∃ pre slash c mid post,
    l = pre ++ '<' :: (slash ++ c :: (mid ++ '>' :: post))
    ∧ (slash = [] ∨ slash = ['/']) ∧ isAsciiLetter c = true

theorem contains_split (l : List Char) (a : Char) :
    l.contains a = true ↔ ∃ mid post, l = mid ++ a :: post := by
  rw [List.elem_iff]
  exact List.mem_iff_append

/-- What remains after a `<`: `tagAfterLt` succeeds exactly on an optional
slash, an ASCII letter, and a later `>`. -/
theorem tagAfterLt_iff (l : List Char) :
    tagAfterLt l = true ↔
      ∃ slash c mid post,
        l = slash ++ c :: (mid ++ '>' :: post)
        ∧ (slash = [] ∨ slash = ['/']) ∧ isAsciiLetter c = true := by
  cases l with
  | nil =>
    constructor
    · intro h
      exact absurd h (by decide)
    · rintro ⟨slash, c, mid, post, heq, hs, -⟩
      exfalso
      rcases hs with rfl | rfl <;> simp at heq
  | cons hd rest =>
    by_cases hslash : hd = '/'
    · subst hslash
      cases rest with
      | nil =>
        constructor
        · intro h
          exact absurd h (by decide)
        · rintro ⟨slash, c, mid, post, heq, hs, hc⟩
          exfalso
          rcases hs with rfl | rfl
          · rw [List.nil_append, List.cons.injEq] at heq
            exact absurd heq.2 (by simp)
          · rw [List.cons_append, List.nil_append, List.cons.injEq] at heq
            exact absurd heq.2 (by simp)
      | cons c2 rest2 =>
        have hunf : tagAfterLt ('/' :: c2 :: rest2)
            = (isAsciiLetter c2 && rest2.contains '>') := rfl
        rw [hunf, Bool.and_eq_true, contains_split]
        constructor
        · rintro ⟨hc2, mid, post, hsplit⟩
          exact ⟨['/'], c2, mid, post, by simp [hsplit], Or.inr rfl, hc2⟩
        · rintro ⟨slash, c, mid, post, heq, hs, hc⟩
          rcases hs with rfl | rfl
          · rw [List.nil_append, List.cons.injEq] at heq
            rw [← heq.1] at hc
            exact absurd hc (by decide)
          · rw [List.cons_append, List.nil_append, List.cons.injEq] at heq
            obtain ⟨-, heq2⟩ := heq
            rw [List.cons.injEq] at heq2
            obtain ⟨rfl, hr⟩ := heq2
            exact ⟨hc, mid, post, hr⟩
    · have hunf : tagAfterLt (hd :: rest) = (isAsciiLetter hd && rest.contains '>') := by
        have h0 : tagAfterLt (hd :: rest)
            = if hd = '/' then
                (match rest with
                 | [] => false
                 | c2 :: rest2 => isAsciiLetter c2 && rest2.contains '>')
              else isAsciiLetter hd && rest.contains '>' := rfl
        rw [h0, if_neg hslash]
      rw [hunf, Bool.and_eq_true, contains_split]
      constructor
      · rintro ⟨hhd, mid, post, hsplit⟩
        exact ⟨[], hd, mid, post, by simp [hsplit], Or.inl rfl, hhd⟩
      · rintro ⟨slash, c, mid, post, heq, hs, hc⟩
        rcases hs with rfl | rfl
        · rw [List.nil_append, List.cons.injEq] at heq
          obtain ⟨rfl, hr⟩ := heq
          exact ⟨hc, mid, post, hr⟩
        · rw [List.cons_append, List.nil_append, List.cons.injEq] at heq
          exact absurd heq.1 hslash

/-- The scan of `looksAux` succeeds exactly when some `<` of the input is
followed by material accepted by `tagAfterLt`. -/
theorem looksAux_iff (l : List Char) :
    looksAux l = true ↔ ∃ pre rest, l = pre ++ '<' :: rest ∧ tagAfterLt rest = true := by
  induction l with
  | nil =>
    simp only [looksAux, Bool.false_eq_true, false_iff]
    rintro ⟨pre, rest, heq, -⟩
    simp at heq
  | cons hd tl ih =>
    simp only [looksAux, Bool.or_eq_true, ih]
    by_cases h : hd = '<'
    · subst h
      simp only [if_pos rfl]
      constructor
      · rintro (ht | ⟨pre, rest, heq, ht⟩)
        · exact ⟨[], tl, rfl, ht⟩
        · exact ⟨'<' :: pre, rest, by rw [heq]; rfl, ht⟩
      · rintro ⟨pre, rest, heq, ht⟩
        cases pre with
        | nil =>
          simp only [List.nil_append, List.cons.injEq] at heq
          rw [heq.2]
          exact Or.inl ht
        | cons p ps =>
          simp only [List.cons_append, List.cons.injEq] at heq
          exact Or.inr ⟨ps, rest, heq.2, ht⟩
    · simp only [if_neg h, Bool.false_eq_true, false_or]
      constructor
      · rintro ⟨pre, rest, heq, ht⟩
        exact ⟨hd :: pre, rest, by rw [heq]; rfl, ht⟩
      · rintro ⟨pre, rest, heq, ht⟩
        cases pre with
        | nil =>
          simp only [List.nil_append, List.cons.injEq] at heq
          exact absurd heq.1 h
        | cons p ps =>
          simp only [List.cons_append, List.cons.injEq] at heq
          exact ⟨ps, rest, heq.2, ht⟩

/-- C6: confirmed.  `looksLikeHtml` returns `true` exactly when the input
contains a substring of the form `<`, optionally `/`, an ASCII letter, then
any characters, then `>` (the test of `/<\/?[a-z][\s\S]*>/i`); in
particular it rejects `"a < b"`, accepts `"use <b>bold</b> text"`, and
rejects the empty string.  It is a pure total function, hence deterministic
with no side effects and no error conditions. -/
theorem looksLikeHtml_characterization :
    (∀ s : String, looksLikeHtml s = true ↔ SpecTagPattern s.data)
    ∧ looksLikeHtml ("a < b") = false
    ∧ looksLikeHtml ("use <b>bold</b> text") = true
    ∧ looksLikeHtml ("") = false := by
  refine ⟨?_, by decide, by decide, by decide⟩
  intro s
  rw [looksLikeHtml, looksAux_iff]
  constructor
  · rintro ⟨pre, rest, heq, ht⟩
    obtain ⟨slash, c, mid, post, hr, hs, hc⟩ := (tagAfterLt_iff rest).mp ht
    exact ⟨pre, slash, c, mid, post, by rw [heq, hr], hs, hc⟩
  · rintro ⟨pre, slash, c, mid, post, heq, hs, hc⟩
    exact ⟨pre, slash ++ c :: (mid ++ '>' :: post), heq,
      (tagAfterLt_iff _).mpr ⟨slash, c, mid, post, rfl, hs, hc⟩⟩

/-- C7: confirmed.  The plain-text branch splits on `\n` / `\r\n`, keeps the
lines that are non-empty after trimming (without trimming their content, as
the third example shows), renders the original content as a single
unwrapped block when at most one such line remains, and otherwise renders
exactly one paragraph per kept line in original order (the kept lines are a
sublist of the split, and each is non-blank); `"Line1\nLine2"` and
`"Line1\n\nLine2"` both yield exactly the two paragraphs `"Line1"`,
`"Line2"`. -/
theorem formatPlain_characterization :
    (∀ content : String,
      ((keptLines content).length ≤ 1 → formatPlain content = .block content)
      ∧ (2 ≤ (keptLines content).length →
          formatPlain content = .paras (keptLines content))
      ∧ (∀ l ∈ keptLines content, (jsTrim l).data.length > 0)
      ∧ (keptLines content).Sublist (splitLines content))
    ∧ formatPlain ("Line1\nLine2") = .paras ["Line1", "Line2"]
    ∧ formatPlain ("Line1\n\nLine2") = .paras ["Line1", "Line2"]
    ∧ formatPlain ("  a \n  b ") = .paras ["  a ", "  b "] := by
  refine ⟨?_, by decide, by decide, by decide⟩
  intro content
  refine ⟨?_, ?_, ?_, ?_⟩
  · intro h
    simp only [formatPlain]
    rw [if_pos h]
  · intro h
    simp only [formatPlain]
    rw [if_neg (by omega)]
  · intro l hl
    rw [keptLines] at hl
    exact of_decide_eq_true (List.mem_filter.mp hl).2
  · rw [keptLines]
    exact List.filter_sublist _

/-- Witness for C7 at a concrete input: one non-blank line is rendered as a
single unwrapped block holding the original content. -/
theorem formatPlain_characterization_witness :
    formatPlain ("Hello world") = .block ("Hello world") :=
  (formatPlain_characterization.1 ("Hello world")).1 (by decide)

/-- C10: confirmed.  `RichText` coalesces `null`/`undefined` children to the
empty string, and routes every content string to exactly one branch: when
`looksLikeHtml` holds the result is `sanitizeHtml(content)` injected as
trusted markup, and otherwise it is the plain-text formatting of the
content, rendered as literal text (the plain constructors are never markup,
so tag-like substrings there are characters, not elements). -/
theorem render_routing :
    (∀ parseFn : String → Option Doc, render parseFn none = render parseFn (some ""))
    ∧ (∀ (parseFn : String → Option Doc) (s : String), looksLikeHtml s = true →
        render parseFn (some s) = .markup (sanitizeStr parseFn s))
    ∧ (∀ (parseFn : String → Option Doc) (s : String), looksLikeHtml s = false →
        (render parseFn (some s) =
          match formatPlain s with
          | .block c => .textBlock c
          | .paras ls => .textParas ls)
        ∧ ∀ html : String, render parseFn (some s) ≠ .markup html) := by
  refine ⟨fun parseFn => rfl, ?_, ?_⟩
  · intro parseFn s h
    simp only [render, Option.getD_some]
    rw [if_pos h]
  · intro parseFn s h
    have hr : render parseFn (some s) =
        match formatPlain s with
        | .block c => .textBlock c
        | .paras ls => .textParas ls := by
      simp only [render, Option.getD_some]
      rw [if_neg (by simp [h])]
    refine ⟨hr, ?_⟩
    intro html
    rw [hr]
    cases formatPlain s <;> simp

/-- Witness for C10 at concrete inputs: markup-looking content goes to the
sanitizer branch, prose goes to the literal-text branch. -/
theorem render_routing_witness :
    render (fun _ => none) (some ("<b>x</b>"))
        = .markup (sanitizeStr (fun _ => none) ("<b>x</b>"))
    ∧ render (fun _ => none) (some ("hello")) = .textBlock ("hello") := by
  constructor
  · exact render_routing.2.1 _ _ (by decide)
  · have h := (render_routing.2.2 (fun _ => none) ("hello") (by decide)).1
    rw [h]
    decide
